import Mathlib

/-!
Shallow embedding of the checkpointed, reconnect-safe stream consumer of the
dfuse client examples: the block-height variant
(src/examples/advanced/never-miss-a-beat.ts, class Engine) and the GraphQL
cursor variant (src/examples/advanced/common/graphql-never-miss-a-beat.js,
class Engine).  Payloads (the `trace.act` / `action.json` values) are opaque
and modelled as strings; the cursor of the GraphQL variant is an opaque,
transport-supplied token and is modelled by a type parameter.  Console output
is modelled only where a claim depends on it (the onError handler); the
externally visible operations of a commit (sink append, stream mark, cursor
persist) are recorded in an effect log in the order the code performs them.
-/

namespace NeverMissABeat

/-! ## Block-height variant (never-miss-a-beat.ts) -/

/-- Projection of `ActionTraceInboundMessage.data` used by `Engine.onAction`:
the block id, the block number, and the (opaque) action `trace.act`. -/
structure TsMsgData where
  blockId : String
  blockNum : Nat
  act : String
deriving DecidableEq, Repr

/-- Projection of `ProgressInboundMessage.data` used by `Engine.onProgress`. -/
structure TsProgressData where
  blockId : String
  blockNum : Nat
deriving DecidableEq, Repr

/-- State of the TypeScript `Engine`.  The source stores bare actions in
`pendingActions`/`committedActions`; here each stored action is paired with
the block number of the message that carried it (ghost data, needed to state
position invariants — the engine never reads this component).  `markedAt`
records the argument of the last `stream.mark({ atBlockNum })` call, `none`
when `mark` was never called. -/
structure TsState where
  pendingActions : List (Nat × String)
  lastCommittedBlockNum : Nat
  committedActions : List (Nat × String)
  markedAt : Option Nat
deriving DecidableEq, Repr

/-- Initial state: `pendingActions = []`, `lastCommittedBlockNum = 0`,
`committedActions = []`, no mark issued yet. -/
def tsInit : TsState :=
  { pendingActions := []
    lastCommittedBlockNum := 0
    committedActions := []
    markedAt := none }

/-- `Engine.commit(blockId, blockNum)`: pushes every pending action onto
`committedActions` (the `if length > 0` guard only skips an empty loop),
clears `pendingActions`, sets `lastCommittedBlockNum := blockNum`, then calls
`stream.mark({ atBlockNum: blockNum })`.  The TypeScript variant has no
cursor-store persistence (the source only notes in a comment that production
code would persist `lastCommittedBlockNum`). -/
def tsCommit (s : TsState) (_blockId : String) (blockNum : Nat) : TsState :=
  { pendingActions := []
    lastCommittedBlockNum := blockNum
    committedActions := s.committedActions ++ s.pendingActions
    markedAt := some blockNum }

/-- `Engine.onAction(message)`: if the message block number is ahead of
`lastCommittedBlockNum`, commit first; afterwards push `trace.act` (paired
with its block number) onto `pendingActions`. -/
def tsOnAction (s : TsState) (m : TsMsgData) : TsState :=
  let s1 := if m.blockNum > s.lastCommittedBlockNum then tsCommit s m.blockId m.blockNum else s
  { s1 with pendingActions := s1.pendingActions ++ [(m.blockNum, m.act)] }

/-- `Engine.onProgress(message)`: unconditionally commit at the progress
message block. -/
def tsOnProgress (s : TsState) (m : TsProgressData) : TsState :=
  tsCommit s m.blockId m.blockNum

/-- `Engine.flushPending()`: clears `pendingActions` (invoked from the
`onPostRestart` reconnection hook). -/
def tsFlushPending (s : TsState) : TsState :=
  { s with pendingActions := [] }

/-- Handler invocations the TypeScript engine reacts to: an action-trace
message, a progress message, or a reconnect (which runs `flushPending`). -/
inductive TsEvent where
  | action (m : TsMsgData)
  | progress (m : TsProgressData)
  | reconnect
deriving DecidableEq, Repr

/-- One handler invocation. -/
def tsStep (s : TsState) : TsEvent → TsState
  | .action m => tsOnAction s m
  | .progress m => tsOnProgress s m
  | .reconnect => tsFlushPending s

/-- Run a sequence of handler invocations from the initial state. -/
def tsRun (evs : List TsEvent) : TsState :=
  evs.foldl tsStep tsInit

/-- The position (block number) an event is delivered at, if any. -/
def tsEventPos : TsEvent → Option Nat
  | .action m => some m.blockNum
  | .progress m => some m.blockNum
  | .reconnect => none

/-- The positions of an invocation sequence, in delivery order. -/
def tsPositions (evs : List TsEvent) : List Nat :=
  evs.filterMap tsEventPos

/-- All recorded block numbers in `xs` are at most `bound`. -/
def tsAllLE (bound : Nat) (xs : List (Nat × String)) : Bool :=
  xs.all fun x => decide (x.1 ≤ bound)

/-! ## GraphQL cursor variant (graphql-never-miss-a-beat.js) -/

/-- Externally visible operations of the GraphQL engine, in the order the
code performs them: appending an action to the sink (`committedActions` in
the demo, a database in production), `stream.mark({ cursor })`, persisting
the cursor (`writeFileSync` of `last_cursor.txt`), and a console log line.
The cursor type `κ` is the opaque transport token. -/
inductive Effect (κ : Type) where
  | sinkAppend (a : String)
  | markStream (c : κ)
  | persistCursor (c : κ)
  | logLine (s : String)
deriving DecidableEq, Repr

/-- State of the JavaScript `Engine` plus its externally visible collaborators:
`cursorFile` is the content of `last_cursor.txt` (`none` when absent),
`markedCursor` the argument of the last `stream.mark({ cursor })` call, and
`log` the effect trace. -/
structure JsState (κ : Type) where
  pendingActions : List String
  committedActions : List String
  cursorFile : Option κ
  markedCursor : Option κ
  log : List (Effect κ)
deriving DecidableEq, Repr

/-- Fresh engine with no stored cursor: `pendingActions = []`,
`committedActions = []` (constructor), empty file, no mark. -/
def jsInit {κ : Type} : JsState κ :=
  { pendingActions := []
    committedActions := []
    cursorFile := none
    markedCursor := none
    log := [] }

/-- `Engine.commit(cursor)`: if `pendingActions` is non-empty, push each onto
`committedActions` and clear the buffer; then `stream.mark({ cursor })`; then
`writeFileSync(last_cursor_path, cursor)`.  Note the order: the mark precedes
the cursor persist, and the clearing of the buffer sits inside the
non-emptiness guard. -/
def jsCommit {κ : Type} (s : JsState κ) (cursor : κ) : JsState κ :=
  let s1 :=
    if s.pendingActions.isEmpty then s
    else
      { s with
        committedActions := s.committedActions ++ s.pendingActions
        pendingActions := []
        log := s.log ++ s.pendingActions.map Effect.sinkAppend }
  { s1 with
    markedCursor := some cursor
    cursorFile := some cursor
    log := s1.log ++ [Effect.markStream cursor, Effect.persistCursor cursor] }

/-- `Engine.onProgress(blockId, blockNum, cursor)`: logs the live marker and
commits at `cursor`. -/
def jsOnProgress {κ : Type} (s : JsState κ) (_blockId : String) (_blockNum : Nat)
    (cursor : κ) : JsState κ :=
  jsCommit s cursor

/-- The `message.searchTransactionsForward` payload of a GraphQL `data`
message: block id and number, the cursor, and — for a transaction result —
the list of `matchingActions` json payloads.  `trace = none` is a live-marker
progress message. -/
structure GqlData (κ : Type) where
  blockId : String
  blockNum : Nat
  cursor : κ
  trace : Option (List String)
deriving DecidableEq, Repr

/-- `Engine.onResult(message)`: a message without `trace` is routed to
`onProgress`; otherwise each matching action json is pushed onto
`pendingActions` and the engine commits at the message cursor. -/
def jsOnResult {κ : Type} (s : JsState κ) (d : GqlData κ) : JsState κ :=
  match d.trace with
  | none => jsOnProgress s d.blockId d.blockNum d.cursor
  | some actions =>
      jsCommit { s with pendingActions := s.pendingActions ++ actions } d.cursor

/-- The `stream.onPostRestart` hook: clears `pendingActions`, nothing else. -/
def jsOnPostRestart {κ : Type} (s : JsState κ) : JsState κ :=
  { s with pendingActions := [] }

/-- `Engine.onComplete()`: logs only. -/
def jsOnComplete {κ : Type} (s : JsState κ) : JsState κ :=
  { s with log := s.log ++ [Effect.logLine "Received a complete message, no more results for this stream"] }

/-- JavaScript runtime errors the embedding can surface. -/
inductive JsError where
  | referenceError (msg : String)
deriving DecidableEq, Repr

/-- Identifiers in scope inside the graphql-never-miss-a-beat.js module
(top-level bindings, imports, and the ambient globals the file uses).  The
identifier `nil` is not among them — it is defined nowhere in the file nor in
JavaScript. -/
def jsModuleScope : List String :=
  ["runMain", "createDfuseClient", "writeFileSync", "readFileSync", "existsSync",
   "path", "LAST_CURSOR_FILENAME", "main", "Engine", "printBlock", "global",
   "require", "module", "process", "console", "JSON", "undefined", "Error"]

/-- Evaluate an identifier: a name not in scope raises a `ReferenceError`,
as JavaScript does. -/
def lookupIdent (x : String) : Except JsError String :=
  if x ∈ jsModuleScope then Except.ok x else Except.error (JsError.referenceError (x ++ " is not defined"))

/-- The argument expression `JSON.stringify(errors, nil, "  ")` of the first
`console.log` in `Engine.onError`: evaluating it first evaluates the
identifier `nil`. -/
def jsStringifyErrors (errors : String) : Except JsError String := do
  let _ ← lookupIdent "nil"
  pure ("stringified " ++ errors)

/-- `Engine.onError(errors, terminal)`: logs the error message (evaluating
`JSON.stringify(errors, nil, "  ")` first) and, when `terminal`, logs that the
stream will reconnect automatically.  It touches no other state: no mark, no
persist, no sink append, no stopped flag. -/
def jsOnError {κ : Type} (s : JsState κ) (errors : String) (terminal : Bool) :
    Except JsError (JsState κ) := do
  let pretty ← jsStringifyErrors errors
  let s1 := { s with log := s.log ++ [Effect.logLine ("Received an error message " ++ pretty)] }
  pure <|
    if terminal then
      { s1 with log := s1.log ++ [Effect.logLine "Received a terminal error message, the stream will automatically reconnects in 250ms"] }
    else s1

/-- The messages the `graphql` callback in `Engine.run` dispatches on. -/
inductive GqlMessage (κ : Type) where
  | data (d : GqlData κ)
  | error (errors : String) (terminal : Bool)
  | complete
deriving DecidableEq, Repr

/-- The dispatch in `Engine.run`: `data` goes to `onResult`, `error` to
`onError`, `complete` to `onComplete`.  When `onError` throws (it always
does, on the undefined identifier `nil`), the exception propagates out of the
callback; the engine object itself is left untouched and keeps receiving
whatever messages the transport delivers next. -/
def jsOnMessage {κ : Type} (s : JsState κ) : GqlMessage κ → JsState κ
  | .data d => jsOnResult s d
  | .error e t =>
      match jsOnError s e t with
      | .ok s1 => s1
      | .error _ => s
  | .complete => jsOnComplete s

/-- Run a list of delivered messages from the fresh engine. -/
def jsRunMessages {κ : Type} (msgs : List (GqlMessage κ)) : JsState κ :=
  msgs.foldl jsOnMessage jsInit

/-! ## Transport model for the no-gap property (C2)

The source of truth is a finite list of data messages; message `i` carries
the action payloads `src[i]` and the opaque cursor token of position `i`
(modelled as `i` itself — the transport alone interprets tokens).  A
reconnect clears the pending buffer via `onPostRestart` and redelivers
inclusively from the last marked cursor (from the beginning when no mark was
ever issued, matching the initial empty `cursor` variable). -/

/-- Engine plus transport position: `pos` is the index of the next source
message to deliver. -/
structure GqlSys where
  engine : JsState Nat
  pos : Nat
deriving DecidableEq, Repr

/-- Fresh system: fresh engine, delivery from the start of the source. -/
def sysInit : GqlSys :=
  { engine := jsInit, pos := 0 }

/-- Deliver one source message (a no-op when the source is exhausted): the
engine handles a `data` message carrying payloads `src[pos]` and cursor
`pos`, and the transport advances. -/
def sysStep (src : List (List String)) (s : GqlSys) : GqlSys :=
  match src[s.pos]? with
  | none => s
  | some actions =>
      { engine := jsOnResult s.engine
          { blockId := "", blockNum := s.pos, cursor := s.pos, trace := some actions }
        pos := s.pos + 1 }

/-- Deliver `k` messages. -/
def sysSteps (src : List (List String)) : Nat → GqlSys → GqlSys
  | 0, s => s
  | k + 1, s => sysSteps src k (sysStep src s)

/-- A reconnect: `onPostRestart` clears the pending buffer, and the transport
resumes inclusively at the last marked cursor (the beginning if none). -/
def sysReconnect (s : GqlSys) : GqlSys :=
  { engine := jsOnPostRestart s.engine
    pos := (s.engine.markedCursor).getD 0 }

/-- Run the system under a reconnect schedule: each schedule entry `k` means
"deliver `k` messages, then reconnect"; after the last reconnect the source
is delivered to the end (`src.length` steps always suffice). -/
def sysRun (src : List (List String)) : List Nat → GqlSys → GqlSys
  | [], s => sysSteps src src.length s
  | k :: ks, s => sysRun src ks (sysReconnect (sysSteps src k s))

/-! ## Invariants used in the proofs -/

/-- Inductive invariant of the TypeScript engine under position-monotone
delivery: every sunk and every pending action sits at or before
`lastCommittedBlockNum`, and the last mark (when issued) is exactly
`lastCommittedBlockNum`. -/
def tsInv (s : TsState) : Prop :=
  (∀ x ∈ s.committedActions, x.1 ≤ s.lastCommittedBlockNum) ∧
  (∀ x ∈ s.pendingActions, x.1 ≤ s.lastCommittedBlockNum) ∧
  (s.markedAt = none ∨ s.markedAt = some s.lastCommittedBlockNum)

/-- Inductive invariant of the GraphQL system: the pending buffer is empty
between deliveries (the engine commits on every result), the transport
position never passes the end, any mark points at or before the position,
every fully delivered message is already sunk, and the sink only holds
source payloads. -/
def sysInv (src : List (List String)) (s : GqlSys) : Prop :=
  s.engine.pendingActions = [] ∧
  s.pos ≤ src.length ∧
  (∀ m, s.engine.markedCursor = some m → m ≤ s.pos) ∧
  (List.take s.pos src).flatten ⊆ s.engine.committedActions ∧
  s.engine.committedActions ⊆ src.flatten

/-! ## Helper lemmas -/

/-- Field-level description of `jsCommit`, valid whether or not the pending
buffer is empty: the effect log grows by the sink appends (in arrival order)
followed by the mark and then the cursor persist; the pending buffer is
drained into the sink; mark and cursor file both end at the committed
cursor. -/
theorem jsCommit_fields {κ : Type} (s : JsState κ) (c : κ) :
    (jsCommit s c).log =
      s.log ++ s.pendingActions.map Effect.sinkAppend ++
        [Effect.markStream c, Effect.persistCursor c] ∧
    (jsCommit s c).committedActions = s.committedActions ++ s.pendingActions ∧
    (jsCommit s c).pendingActions = [] ∧
    (jsCommit s c).markedCursor = some c ∧
    (jsCommit s c).cursorFile = some c := by
  rcases s with ⟨p, co, f, mk, lg⟩
  cases p <;> simp [jsCommit]

/-- `jsOnResult` on a transaction-result message: the payloads are pushed
onto the pending buffer before the commit, so the commit drains the prior
pending payloads followed by the message payloads. -/
theorem jsOnResult_data_fields {κ : Type} (s : JsState κ) (bid : String) (bn : Nat)
    (c : κ) (actions : List String) :
    (jsOnResult s ⟨bid, bn, c, some actions⟩).committedActions =
      s.committedActions ++ (s.pendingActions ++ actions) ∧
    (jsOnResult s ⟨bid, bn, c, some actions⟩).pendingActions = [] ∧
    (jsOnResult s ⟨bid, bn, c, some actions⟩).markedCursor = some c ∧
    (jsOnResult s ⟨bid, bn, c, some actions⟩).cursorFile = some c := by
  have h := jsCommit_fields { s with pendingActions := s.pendingActions ++ actions } c
  exact ⟨h.2.1, h.2.2.1, h.2.2.2.1, h.2.2.2.2⟩

/-! ## Claims -/

/-- C3: the claim states commit performs, in order, (a) sink append of the
pending buffer and clear, (b) persist to the cursor store, (c) mark the
transport, (d) update lastCommittedPosition.  Counterexample: with pending
buffer `["T1"]`, a `commit "c"` of the GraphQL engine emits the mark
*before* the cursor persist, so the effect trace differs from the claimed
one. -/
theorem claim_C3_counterexample :
    (jsCommit ({ pendingActions := ["T1"], committedActions := [], cursorFile := none,
                 markedCursor := none, log := [] } : JsState String) "c").log =
      [Effect.sinkAppend "T1", Effect.markStream "c", Effect.persistCursor "c"] ∧
    (jsCommit ({ pendingActions := ["T1"], committedActions := [], cursorFile := none,
                 markedCursor := none, log := [] } : JsState String) "c").log ≠
      [Effect.sinkAppend "T1", Effect.persistCursor "c", Effect.markStream "c"] := by
  exact ⟨rfl, by decide⟩

/-- C3 (amended): `commit(position)` performs, in order: (a) if the pending
buffer is non-empty, append its contents to the sink in arrival order and
clear the buffer; (b) instruct the transport to mark `position`; (c) persist
`position` to the cursor store (GraphQL variant).  The block-height variant
performs (a), then updates `lastCommittedBlockNum`, then marks, and has no
cursor-store persist step. -/
theorem claim_C3_theorem :
    ∀ (s : JsState String) (c : String) (ts : TsState) (bid : String) (n : Nat),
    (jsCommit s c).log =
      s.log ++ s.pendingActions.map Effect.sinkAppend ++
        [Effect.markStream c, Effect.persistCursor c] ∧
    (jsCommit s c).committedActions = s.committedActions ++ s.pendingActions ∧
    (jsCommit s c).pendingActions = [] ∧
    (jsCommit s c).markedCursor = some c ∧
    (jsCommit s c).cursorFile = some c ∧
    tsCommit ts bid n =
      { pendingActions := [], lastCommittedBlockNum := n,
        committedActions := ts.committedActions ++ ts.pendingActions,
        markedAt := some n } := by
  intro s c ts bid n
  have h := jsCommit_fields s c
  exact ⟨h.1, h.2.1, h.2.2.1, h.2.2.2.1, h.2.2.2.2, rfl⟩

/-- C4: the reconnect handling (`onPostRestart` in the GraphQL variant,
`flushPending` in the block-height variant) leaves the pending buffer empty
and issues no commit for the dropped items: sink, cursor file, mark and the
effect log are untouched. -/
theorem claim_C4_theorem : ∀ (s : JsState String) (ts : TsState),
    (jsOnPostRestart s).pendingActions = [] ∧
    (jsOnPostRestart s).committedActions = s.committedActions ∧
    (jsOnPostRestart s).cursorFile = s.cursorFile ∧
    (jsOnPostRestart s).markedCursor = s.markedCursor ∧
    (jsOnPostRestart s).log = s.log ∧
    (tsFlushPending ts).pendingActions = [] ∧
    (tsFlushPending ts).committedActions = ts.committedActions ∧
    (tsFlushPending ts).lastCommittedBlockNum = ts.lastCommittedBlockNum ∧
    (tsFlushPending ts).markedAt = ts.markedAt := by
  intro s ts
  exact ⟨rfl, rfl, rfl, rfl, rfl, rfl, rfl, rfl, rfl⟩

/-- C5: a Progress event carrying position `P` unconditionally commits: the
GraphQL engine persists the cursor to the cursor file and marks the
transport at it — when the pending buffer is empty these are exactly the two
emitted effects — and the block-height engine marks the transport at the
progress block and records it as `lastCommittedBlockNum`. -/
theorem claim_C5_theorem :
    ∀ (s : JsState String) (bid : String) (bn : Nat) (c : String)
      (ts : TsState) (m : TsProgressData),
    (jsOnProgress s bid bn c).cursorFile = some c ∧
    (jsOnProgress s bid bn c).markedCursor = some c ∧
    (s.pendingActions = [] →
      (jsOnProgress s bid bn c).log =
        s.log ++ [Effect.markStream c, Effect.persistCursor c]) ∧
    (tsOnProgress ts m).markedAt = some m.blockNum ∧
    (tsOnProgress ts m).lastCommittedBlockNum = m.blockNum := by
  intro s bid bn c ts m
  have h := jsCommit_fields s c
  refine ⟨h.2.2.2.2, h.2.2.2.1, ?_, rfl, rfl⟩
  intro hp
  have hl := h.1
  rw [hp] at hl
  simpa using hl

/-- C5 witness: the progress-only commit at the fresh engine (empty pending
buffer) marks and persists the cursor, emitting exactly those two effects. -/
theorem claim_C5_witness :
    (jsOnProgress (jsInit : JsState String) "b10" 10 "c10").cursorFile = some "c10" ∧
    (jsOnProgress (jsInit : JsState String) "b10" 10 "c10").log =
      (jsInit : JsState String).log ++ [Effect.markStream "c10", Effect.persistCursor "c10"] := by
  have h := claim_C5_theorem (jsInit : JsState String) "b10" 10 "c10" tsInit ⟨"b", 1⟩
  exact ⟨h.1, h.2.2.1 rfl⟩

/-- C6: the claim states onData first appends the payload and only then
commits, so a commit caused by a Data event includes that payload.
Counterexample: the block-height `onAction`, on the first action (block 5,
payload T1) from the initial state, issues a commit (the stream is marked at
block 5) whose drained buffer is empty — T1 is still pending afterwards, so
the commit caused by the event excluded the event's own payload. -/
theorem claim_C6_counterexample :
    (tsRun [TsEvent.action ⟨"b5", 5, "T1"⟩]).markedAt = some 5 ∧
    (tsRun [TsEvent.action ⟨"b5", 5, "T1"⟩]).committedActions = [] ∧
    (tsRun [TsEvent.action ⟨"b5", 5, "T1"⟩]).pendingActions = [(5, "T1")] := by
  exact ⟨rfl, rfl, rfl⟩

/-- C6 (amended): in the GraphQL variant, `onResult` appends the message
payloads to the pending buffer and only then commits, so that commit drains
the prior pending payloads followed by the event's own payloads; in the
block-height variant, `onAction` commits *first* (whenever the event's block
is ahead of `lastCommittedBlockNum`) and appends the payload only
afterwards, so that commit drains only earlier payloads and never the
triggering event's own payload, which remains pending. -/
theorem claim_C6_theorem :
    (∀ (s : JsState String) (bid : String) (bn : Nat) (c : String) (actions : List String),
      (jsOnResult s ⟨bid, bn, c, some actions⟩).committedActions =
        s.committedActions ++ (s.pendingActions ++ actions) ∧
      (jsOnResult s ⟨bid, bn, c, some actions⟩).pendingActions = []) ∧
    (∀ (ts : TsState) (m : TsMsgData), m.blockNum > ts.lastCommittedBlockNum →
      (tsOnAction ts m).committedActions = ts.committedActions ++ ts.pendingActions ∧
      (tsOnAction ts m).pendingActions = [(m.blockNum, m.act)] ∧
      (tsOnAction ts m).markedAt = some m.blockNum) := by
  constructor
  · intro s bid bn c actions
    have h := jsOnResult_data_fields s bid bn c actions
    exact ⟨h.1, h.2.1⟩
  · intro ts m h
    simp [tsOnAction, tsCommit, if_pos h]

/-- C6 witness: concrete instances of both conjuncts, with the block-ahead
hypothesis discharged at block 5 against the initial state. -/
theorem claim_C6_witness :
    (jsOnResult (jsInit : JsState String) ⟨"b5", 5, "c5", some ["T1"]⟩).committedActions =
      [] ++ ([] ++ ["T1"]) ∧
    (tsOnAction tsInit ⟨"b5", 5, "T1"⟩).markedAt = some 5 := by
  exact ⟨(claim_C6_theorem.1 (jsInit : JsState String) "b5" 5 "c5" ["T1"]).1,
    (claim_C6_theorem.2 tsInit ⟨"b5", 5, "T1"⟩ (by decide)).2.2⟩

/-- C7: from the fresh GraphQL engine (no stored cursor), after
`Data(T1, pos 5)` then `Data(T2, pos 6)` under the commit-on-every-event
policy (the GraphQL engine commits on every result), the sink holds exactly
`[T1, T2]` in that order and the cursor store holds the position-6 cursor. -/
theorem claim_C7_theorem :
    (jsOnResult (jsOnResult (jsInit : JsState String) ⟨"b5", 5, "5", some ["T1"]⟩)
      ⟨"b6", 6, "6", some ["T2"]⟩).committedActions = ["T1", "T2"] ∧
    (jsOnResult (jsOnResult (jsInit : JsState String) ⟨"b5", 5, "5", some ["T1"]⟩)
      ⟨"b6", 6, "6", some ["T2"]⟩).cursorFile = some "6" := by
  exact ⟨rfl, rfl⟩

/-- C8: the claim states a terminal Error event is surfaced as fatal and the
engine stops accepting new events until restarted.  Counterexample: after a
terminal error message at the fresh engine, a subsequent Data message is
still fully processed — its payload is sunk and the stream is marked — so
the engine did not stop accepting events. -/
theorem claim_C8_counterexample :
    (jsRunMessages [GqlMessage.error "boom" true,
      GqlMessage.data ⟨"b5", 5, "5", some ["T1"]⟩]).committedActions = ["T1"] ∧
    (jsRunMessages [GqlMessage.error "boom" true,
      GqlMessage.data ⟨"b5", 5, "5", some ["T1"]⟩]).markedCursor = some ("5" : String) := by
  exact ⟨rfl, rfl⟩

/-- C8 (amended): a terminal Error event is only logged — and the GraphQL
handler in fact throws a `ReferenceError` on the undefined identifier `nil`
before any logging completes; it issues no mark, no persist and no state
change, and the engine continues to accept and process subsequent events
exactly as before; recovery is delegated to the transport's automatic
reconnection. -/
theorem claim_C8_theorem :
    ∀ (s : JsState String) (errors : String) (terminal : Bool) (d : GqlData String),
    jsOnError s errors terminal =
      Except.error (JsError.referenceError "nil is not defined") ∧
    jsOnMessage s (GqlMessage.error errors terminal) = s ∧
    jsOnMessage (jsOnMessage s (GqlMessage.error errors terminal)) (GqlMessage.data d) =
      jsOnResult s d := by
  intro s errors terminal d
  exact ⟨rfl, rfl, rfl⟩

/-- C9: for all arguments, the GraphQL `onError` handler raises a
`ReferenceError` before logging completes: evaluating the second argument of
`JSON.stringify(errors, nil, "  ")` looks up the identifier `nil`, which is
defined nowhere in the module (nor in JavaScript), so the handler throws
instead of logging and continuing — no log line is ever produced. -/
theorem claim_C9_theorem :
    ∀ (s : JsState String) (errors : String) (terminal : Bool),
    jsOnError s errors terminal =
      Except.error (JsError.referenceError "nil is not defined") := by
  intro s errors terminal
  rfl

/-- One handler invocation preserves "every pending action sits at or before
`lastCommittedBlockNum`" — with no assumption on the delivery order. -/
theorem tsStep_pending_le (s : TsState) (e : TsEvent)
    (h : ∀ x ∈ s.pendingActions, x.1 ≤ s.lastCommittedBlockNum) :
    ∀ x ∈ (tsStep s e).pendingActions, x.1 ≤ (tsStep s e).lastCommittedBlockNum := by
  cases e with
  | action m =>
    by_cases hb : m.blockNum > s.lastCommittedBlockNum
    · intro x hx
      simp only [tsStep, tsOnAction, if_pos hb, tsCommit, List.nil_append,
        List.mem_singleton] at hx ⊢
      simp [hx]
    · intro x hx
      simp only [tsStep, tsOnAction, if_neg hb, List.mem_append,
        List.mem_singleton] at hx ⊢
      rcases hx with hx | hx
      · exact h x hx
      · rw [hx]
        exact Nat.le_of_not_lt hb
  | progress m =>
    intro x hx
    simp [tsStep, tsOnProgress, tsCommit] at hx
  | reconnect =>
    intro x hx
    simp [tsStep, tsFlushPending] at hx

/-- Folding any invocation sequence preserves the pending-position bound. -/
theorem tsFold_pending_le (evs : List TsEvent) :
    ∀ s : TsState, (∀ x ∈ s.pendingActions, x.1 ≤ s.lastCommittedBlockNum) →
    ∀ x ∈ (evs.foldl tsStep s).pendingActions,
      x.1 ≤ (evs.foldl tsStep s).lastCommittedBlockNum := by
  induction evs with
  | nil => intro s h; simpa using h
  | cons e evs ih =>
    intro s h
    exact ih (tsStep s e) (tsStep_pending_le s e h)

/-- C10: in the block-height variant, after every sequence of `onAction`,
`onProgress` and `flushPending` invocations from the initial state, every
action remaining in `pendingActions` occurred at a block number at most
`lastCommittedBlockNum` — uncommitted pending items always sit at or before
the marked resume position, so inclusive redelivery from the mark covers
them. -/
theorem claim_C10_theorem : ∀ evs : List TsEvent,
    tsAllLE (tsRun evs).lastCommittedBlockNum (tsRun evs).pendingActions = true := by
  intro evs
  have h := tsFold_pending_le evs tsInit (by simp [tsInit])
  simp only [tsAllLE, List.all_eq_true, decide_eq_true_eq]
  exact fun x hx => h x hx

/-- C1: the claim states the persisted/marked Position is never ahead of the
last successfully sunk payload's position.  Counterexample: from the initial
state, `Data(T1, block 5)` then `Data(T2, block 6)` leaves the block-height
engine with the stream marked (and `lastCommittedBlockNum` set) at 6 while
the sink holds only T1, whose position 5 is strictly behind the mark. -/
theorem claim_C1_counterexample :
    (tsRun [TsEvent.action ⟨"b5", 5, "T1"⟩, TsEvent.action ⟨"b6", 6, "T2"⟩]).markedAt =
      some 6 ∧
    (tsRun [TsEvent.action ⟨"b5", 5, "T1"⟩,
      TsEvent.action ⟨"b6", 6, "T2"⟩]).lastCommittedBlockNum = 6 ∧
    (tsRun [TsEvent.action ⟨"b5", 5, "T1"⟩,
      TsEvent.action ⟨"b6", 6, "T2"⟩]).committedActions = [(5, "T1")] ∧
    5 < 6 := by
  exact ⟨rfl, rfl, rfl, by decide⟩

/-- The engine invariant is inductive along any position-monotone suffix of
invocations whose positions all sit at or after the current committed
block. -/
theorem tsFold_inv : ∀ (evs : List TsEvent) (s : TsState),
    tsInv s →
    (∀ p ∈ tsPositions evs, s.lastCommittedBlockNum ≤ p) →
    (tsPositions evs).Pairwise (· ≤ ·) →
    tsInv (evs.foldl tsStep s) := by
  intro evs
  induction evs with
  | nil => intro s h _ _; exact h
  | cons e evs ih =>
    intro s hInv hge hpw
    rcases hInv with ⟨hco, hpe, hmk⟩
    cases e with
    | reconnect =>
      simp only [tsPositions, List.filterMap_cons, tsEventPos] at hge hpw
      refine ih (tsFlushPending s) ⟨hco, ?_, hmk⟩ hge hpw
      intro x hx
      simp [tsFlushPending] at hx
    | action m =>
      simp only [tsPositions, List.filterMap_cons, tsEventPos] at hge hpw
      rw [List.pairwise_cons] at hpw
      have hhead : s.lastCommittedBlockNum ≤ m.blockNum :=
        hge m.blockNum (List.mem_cons_self _ _)
      by_cases hb : m.blockNum > s.lastCommittedBlockNum
      · refine ih _ ⟨?_, ?_, ?_⟩ ?_ hpw.2
        · intro x hx
          simp only [tsStep, tsOnAction, if_pos hb, tsCommit, List.mem_append] at hx ⊢
          rcases hx with hx | hx
          · exact le_trans (hco x hx) (Nat.le_of_lt hb)
          · exact le_trans (hpe x hx) (Nat.le_of_lt hb)
        · intro x hx
          simp only [tsStep, tsOnAction, if_pos hb, tsCommit, List.nil_append,
            List.mem_singleton] at hx ⊢
          simp [hx]
        · right
          simp [tsStep, tsOnAction, if_pos hb, tsCommit]
        · intro p hp
          simp only [tsStep, tsOnAction, if_pos hb, tsCommit]
          exact hpw.1 p hp
      · refine ih _ ⟨?_, ?_, ?_⟩ ?_ hpw.2
        · intro x hx
          simp only [tsStep, tsOnAction, if_neg hb] at hx ⊢
          exact hco x hx
        · intro x hx
          simp only [tsStep, tsOnAction, if_neg hb, List.mem_append,
            List.mem_singleton] at hx ⊢
          rcases hx with hx | hx
          · exact hpe x hx
          · rw [hx]
            exact Nat.le_of_not_lt hb
        · simpa only [tsStep, tsOnAction, if_neg hb] using hmk
        · intro p hp
          simp only [tsStep, tsOnAction, if_neg hb]
          exact hge p (List.mem_cons_of_mem _ hp)
    | progress m =>
      simp only [tsPositions, List.filterMap_cons, tsEventPos] at hge hpw
      rw [List.pairwise_cons] at hpw
      have hhead : s.lastCommittedBlockNum ≤ m.blockNum :=
        hge m.blockNum (List.mem_cons_self _ _)
      refine ih _ ⟨?_, ?_, ?_⟩ ?_ hpw.2
      · intro x hx
        simp only [tsStep, tsOnProgress, tsCommit, List.mem_append] at hx ⊢
        rcases hx with hx | hx
        · exact le_trans (hco x hx) hhead
        · exact le_trans (hpe x hx) hhead
      · intro x hx
        simp [tsStep, tsOnProgress, tsCommit] at hx
      · right
        simp [tsStep, tsOnProgress, tsCommit]
      · intro p hp
        simp only [tsStep, tsOnProgress, tsCommit]
        exact hpw.1 p hp

/-- C1 (amended): for every invocation sequence whose positions arrive in
non-decreasing order, every payload appended to the sink and every payload
still pending sits at or before `lastCommittedBlockNum`, and the stream mark
(when one was issued) is exactly `lastCommittedBlockNum` — so nothing beyond
the marked resume point is ever sunk or buffered.  The persisted Position
can however be ahead of the last sunk payload's position: it advances to the
triggering event's position before that event's payload is sunk (see the
counterexample). -/
theorem claim_C1_theorem : ∀ evs : List TsEvent,
    (tsPositions evs).Pairwise (· ≤ ·) →
    tsAllLE (tsRun evs).lastCommittedBlockNum (tsRun evs).committedActions = true ∧
    tsAllLE (tsRun evs).lastCommittedBlockNum (tsRun evs).pendingActions = true ∧
    ((tsRun evs).markedAt = none ∨
      (tsRun evs).markedAt = some (tsRun evs).lastCommittedBlockNum) := by
  intro evs hpw
  have h := tsFold_inv evs tsInit ⟨by simp [tsInit], by simp [tsInit], Or.inl rfl⟩
    (fun p _ => Nat.zero_le p) hpw
  rcases h with ⟨hco, hpe, hmk⟩
  simp only [tsAllLE, List.all_eq_true, decide_eq_true_eq]
  exact ⟨fun x hx => hco x hx, fun x hx => hpe x hx, hmk⟩

/-- C1 witness: a concrete monotone delivery (actions at blocks 5 and 6, a
progress at block 10, then a reconnect) satisfies the invariant. -/
theorem claim_C1_witness :
    (tsPositions [TsEvent.action ⟨"a", 5, "T1"⟩, TsEvent.action ⟨"b", 6, "T2"⟩,
      TsEvent.progress ⟨"c", 10⟩, TsEvent.reconnect]).Pairwise (· ≤ ·) ∧
    (tsAllLE (tsRun [TsEvent.action ⟨"a", 5, "T1"⟩, TsEvent.action ⟨"b", 6, "T2"⟩,
        TsEvent.progress ⟨"c", 10⟩, TsEvent.reconnect]).lastCommittedBlockNum
      (tsRun [TsEvent.action ⟨"a", 5, "T1"⟩, TsEvent.action ⟨"b", 6, "T2"⟩,
        TsEvent.progress ⟨"c", 10⟩, TsEvent.reconnect]).committedActions = true ∧
     tsAllLE (tsRun [TsEvent.action ⟨"a", 5, "T1"⟩, TsEvent.action ⟨"b", 6, "T2"⟩,
        TsEvent.progress ⟨"c", 10⟩, TsEvent.reconnect]).lastCommittedBlockNum
      (tsRun [TsEvent.action ⟨"a", 5, "T1"⟩, TsEvent.action ⟨"b", 6, "T2"⟩,
        TsEvent.progress ⟨"c", 10⟩, TsEvent.reconnect]).pendingActions = true ∧
     ((tsRun [TsEvent.action ⟨"a", 5, "T1"⟩, TsEvent.action ⟨"b", 6, "T2"⟩,
        TsEvent.progress ⟨"c", 10⟩, TsEvent.reconnect]).markedAt = none ∨
      (tsRun [TsEvent.action ⟨"a", 5, "T1"⟩, TsEvent.action ⟨"b", 6, "T2"⟩,
        TsEvent.progress ⟨"c", 10⟩, TsEvent.reconnect]).markedAt =
        some (tsRun [TsEvent.action ⟨"a", 5, "T1"⟩, TsEvent.action ⟨"b", 6, "T2"⟩,
          TsEvent.progress ⟨"c", 10⟩, TsEvent.reconnect]).lastCommittedBlockNum)) := by
  exact ⟨by decide, claim_C1_theorem _ (by decide)⟩

/-- Flattening a longer take of the source covers a shorter one. -/
theorem flatten_take_mono (src : List (List String)) {m n : Nat} (h : m ≤ n) :
    (List.take m src).flatten ⊆ (List.take n src).flatten := by
  intro a ha
  rw [List.mem_flatten] at ha ⊢
  rcases ha with ⟨l, hl, hal⟩
  refine ⟨l, ?_, hal⟩
  have : List.take m src = List.take m (List.take n src) := by
    rw [List.take_take, Nat.min_eq_left h]
  rw [this] at hl
  exact List.take_subset _ _ hl

/-- Delivering one message preserves the system invariant. -/
theorem sysStep_inv (src : List (List String)) (s : GqlSys) (h : sysInv src s) :
    sysInv src (sysStep src s) := by
  rcases h with ⟨hpend, hlen, hmark, hcov, hsub⟩
  cases hget : src[s.pos]? with
  | none =>
    simpa only [sysStep, hget] using ⟨hpend, hlen, hmark, hcov, hsub⟩
  | some actions =>
    have hfields := jsOnResult_data_fields s.engine "" s.pos (s.pos : Nat) actions
    have hlt : s.pos < src.length := (List.getElem?_eq_some.mp hget).1
    have hmem : actions ∈ src := List.getElem?_mem hget
    simp only [sysStep, hget]
    refine ⟨hfields.2.1, hlt, ?_, ?_, ?_⟩
    · intro m hm
      rw [hfields.2.2.1] at hm
      cases hm
      exact Nat.le_succ _
    · rw [hfields.1, hpend, List.nil_append]
      rw [List.take_succ, hget]
      intro a ha
      simp only [Option.toList_some, List.flatten_append, List.flatten_cons,
        List.flatten_nil, List.append_nil, List.mem_append] at ha
      rcases ha with ha | ha
      · exact List.mem_append_left _ (hcov ha)
      · exact List.mem_append_right _ ha
    · rw [hfields.1, hpend, List.nil_append]
      intro a ha
      rcases List.mem_append.mp ha with ha | ha
      · exact hsub ha
      · exact List.mem_flatten.mpr ⟨actions, hmem, ha⟩

/-- Delivering any number of messages preserves the system invariant. -/
theorem sysSteps_inv (src : List (List String)) :
    ∀ (k : Nat) (s : GqlSys), sysInv src s → sysInv src (sysSteps src k s) := by
  intro k
  induction k with
  | zero => intro s h; exact h
  | succ k ih => intro s h; exact ih (sysStep src s) (sysStep_inv src s h)

/-- A reconnect preserves the system invariant: the pending buffer is
cleared and the transport rewinds to the (already covered) marked cursor. -/
theorem sysReconnect_inv (src : List (List String)) (s : GqlSys) (h : sysInv src s) :
    sysInv src (sysReconnect s) := by
  rcases h with ⟨hpend, hlen, hmark, hcov, hsub⟩
  cases hmk : s.engine.markedCursor with
  | none =>
    refine ⟨rfl, ?_, ?_, ?_, hsub⟩
    · simp only [sysReconnect, hmk, Option.getD_none]
      exact Nat.zero_le _
    · intro m hm
      simp only [sysReconnect, jsOnPostRestart, hmk] at hm
      cases hm
    · simp [sysReconnect, hmk]
  | some m =>
    have hmp : m ≤ s.pos := hmark m hmk
    refine ⟨rfl, ?_, ?_, ?_, hsub⟩
    · simp only [sysReconnect, hmk, Option.getD_some]
      exact le_trans hmp hlen
    · intro m2 hm2
      simp only [sysReconnect, jsOnPostRestart, hmk, Option.getD_some] at hm2 ⊢
      cases hm2
      exact le_refl _
    · simp only [sysReconnect, jsOnPostRestart, hmk, Option.getD_some]
      exact fun a ha => hcov (flatten_take_mono src hmp ha)

/-- Position reached after `k` deliveries: the transport advances one
message per step until the source is exhausted. -/
theorem sysSteps_pos (src : List (List String)) :
    ∀ (k : Nat) (s : GqlSys), s.pos ≤ src.length →
    (sysSteps src k s).pos = min src.length (s.pos + k) := by
  intro k
  induction k with
  | zero =>
    intro s h
    simp [sysSteps, Nat.min_eq_right h]
  | succ k ih =>
    intro s h
    cases hget : src[s.pos]? with
    | none =>
      have hge : src.length ≤ s.pos := List.getElem?_eq_none_iff.mp hget
      have heq : s.pos = src.length := Nat.le_antisymm h hge
      have hstep : sysStep src s = s := by simp only [sysStep, hget]
      simp only [sysSteps, hstep, ih s h]
      omega
    | some actions =>
      have hlt : s.pos < src.length := (List.getElem?_eq_some.mp hget).1
      have hstep : (sysStep src s).pos = s.pos + 1 := by simp only [sysStep, hget]
      have hle : (sysStep src s).pos ≤ src.length := by omega
      simp only [sysSteps, ih (sysStep src s) hle, hstep]
      omega

/-- Running a full schedule keeps the invariant and ends at the end of the
source. -/
theorem sysRun_spec (src : List (List String)) :
    ∀ (sched : List Nat) (s : GqlSys), sysInv src s →
    sysInv src (sysRun src sched s) ∧ (sysRun src sched s).pos = src.length := by
  intro sched
  induction sched with
  | nil =>
    intro s h
    refine ⟨sysSteps_inv src src.length s h, ?_⟩
    rw [sysRun, sysSteps_pos src src.length s h.2.1]
    omega
  | cons k ks ih =>
    intro s h
    exact ih (sysReconnect (sysSteps src k s))
      (sysReconnect_inv src _ (sysSteps_inv src k s h))

/-- C2: for every finite source of Data messages and every placement of
reconnects (each clearing the pending buffer and redelivering inclusively
from the last marked cursor, from the beginning when none was marked), the
set of payloads applied to the sink, deduplicated by identity, equals the
set of payloads the source delivers with zero reconnects — no payload is
permanently lost. -/
theorem claim_C2_theorem : ∀ (src : List (List String)) (sched : List Nat),
    ((sysRun src sched sysInit).engine.committedActions).toFinset =
      src.flatten.toFinset := by
  intro src sched
  have hinit : sysInv src sysInit := by
    refine ⟨rfl, Nat.zero_le _, ?_, ?_, ?_⟩
    · intro m hm
      simp [sysInit, jsInit] at hm
    · simp [sysInit, jsInit]
    · simp [sysInit, jsInit]
  obtain ⟨⟨hpend, hlen, hmark, hcov, hsub⟩, hpos⟩ := sysRun_spec src sched sysInit hinit
  rw [hpos, List.take_length] at hcov
  ext a
  simp only [List.mem_toFinset]
  exact ⟨fun ha => hsub ha, fun ha => hcov ha⟩

end NeverMissABeat
